import Mathlib

/-!
Verification of the archiv digital-asset-management core: the embedding
text composer, the embedding pipeline state machine and queue consumer,
asset/vector deletion, and the hybrid/vector search fusion engine.

Each definition is a shallow embedding of a function from the TypeScript
source (file and symbol named in its doc comment).  External collaborators
(the Vectorize index, the embedding model, the captioning model, R2, D1)
are modelled as explicit inputs: the relational store is a list of rows,
the vector index response is an oracle parameter, model invocations are
`Except` outcomes supplied by the environment.
-/

namespace Archiv

/-! ### String helpers (ASCII case folding and substring match)

SQLite `LIKE` folds ASCII letters only; `%q%` matching is substring
containment.  Wildcard characters inside the user query are treated
literally by this model. -/

/-- Space character, used when `-`/`_` separators are replaced. -/
def spaceChar : Char := Char.ofNat 32

/-- Lower-case an ASCII letter, leave every other character unchanged. -/
def asciiLowerChar (c : Char) : Char :=
  if 65 ≤ c.toNat ∧ c.toNat ≤ 90 then Char.ofNat (c.toNat + 32) else c

/-- Lower-case the ASCII letters of a string. -/
def asciiLower (s : String) : String :=
  ⟨s.data.map asciiLowerChar⟩

/-- Does `pat` occur as a prefix of `s` (on character lists)? -/
def charsStartWith : List Char → List Char → Bool
  | [], _ => true
  | _ :: _, [] => false
  | p :: ps, c :: cs => p = c && charsStartWith ps cs

/-- Does `pat` occur as a contiguous substring of `s` (on character lists)? -/
def isSubstrB (pat : List Char) : List Char → Bool
  | [] => pat.isEmpty
  | c :: cs => charsStartWith pat (c :: cs) || isSubstrB pat cs

/-- Case-insensitive substring containment, the model of SQLite
`field LIKE '%pat%'` (ASCII case folding, as SQLite's `LIKE` does). -/
def ciContains (s pat : String) : Bool :=
  isSubstrB (pat.data.map asciiLowerChar) (s.data.map asciiLowerChar)

/-- Model of JavaScript `String.prototype.startsWith(pre)`. -/
def strStartsWith (s pre : String) : Bool :=
  charsStartWith pre.data s.data

/-- Model of JavaScript `String.prototype.trim()`: strip whitespace from
both ends. -/
def jsTrim (s : String) : String :=
  ⟨((s.data.dropWhile Char.isWhitespace).reverse.dropWhile Char.isWhitespace).reverse⟩

/-! ### Embedding text composer

Source: `composeEmbeddingText` in `src/lib/server/embeddings.ts`. -/

/-- Split a character list at its last `.`: returns the part before and the
part after that dot.  `none` when there is no dot. -/
def splitAtLastDot : List Char → Option (List Char × List Char)
  | [] => none
  | c :: cs =>
    match splitAtLastDot cs with
    | some (b, a) => some (c :: b, a)
    | none => if c = '.' then some ([], cs) else none

/-- Model of `filename.replace(/\.[^/.]+$/, "")`: drop the extension when the
text after the last dot is nonempty and contains no `/` (it cannot contain a
further `.`, the dot being the last one). -/
def stripExtension (s : String) : String :=
  match splitAtLastDot s.data with
  | some (b, a) => if a ≠ [] ∧ '/' ∉ a then ⟨b⟩ else s
  | none => s

/-- Model of `.replace(/[-_]/g, " ")`: each `-` or `_` character becomes one
space (a run of `k` separators becomes `k` spaces). -/
def replaceSeparators (s : String) : String :=
  ⟨s.data.map (fun c => if c = '-' ∨ c = '_' then spaceChar else c)⟩

/-- Source: `composeEmbeddingText(filename, altText, description, aiCaption,
tagNames)` in `src/lib/server/embeddings.ts`.  Cleans the filename, collects
the five candidate parts, drops the JavaScript-falsy ones (`null` and the
empty string, per `.filter(Boolean)`), and joins with a space-pipe-space
delimiter. -/
def composeEmbeddingText (filename : String) (altText description aiCaption : Option String)
    (tagNames : List String) : String :=
  let cleanFilename := replaceSeparators (stripExtension filename)
  let parts := [some cleanFilename, altText, description, aiCaption,
      some (String.intercalate " " tagNames)].filterMap id
  String.intercalate " | " (parts.filter (fun p => p ≠ ""))

/-! ### Data model

Source: `src/db/schema.ts` (`assets` table) and the Vectorize metadata
written by `generateAssetEmbedding`.  `width`, `height` and `updatedAt` are
omitted: no claim mentions them.  Scores are modelled as rationals. -/

/-- The `embedding_status` column (`text`, default `"pending"`). -/
inductive EmbeddingStatus
  | pending
  | processing
  | completed
  | failed
deriving DecidableEq

/-- A row of the `assets` table. -/
structure Asset where
  id : String
  filename : String
  r2Key : String
  mimeType : String
  altText : Option String
  description : Option String
  aiCaption : Option String
  aiCaptionModel : Option String
  folderId : Option String
  organizationId : String
  embeddingStatus : EmbeddingStatus
  embeddingError : Option String
  embeddedAt : Option Nat
  createdAt : Nat
deriving DecidableEq

/-- Vector-record metadata, as written by the upsert in
`generateAssetEmbedding`.  The source serialises `tagIds` as a JSON string
and parses it back on read; since every write is `JSON.stringify` of a
string array and every read is `JSON.parse` of such a value, the round trip
is the identity and the model keeps the typed list. -/
structure VecMeta where
  organizationId : String
  folderId : String
  mimeType : String
  createdAt : Nat
  tagIds : List String
deriving DecidableEq

/-- One match returned by a Vectorize query (`{id, score, metadata}`).
`metadata` is optional, mirroring `match.metadata?.…` in the source. -/
structure VecMatch where
  id : String
  score : ℚ
  metadata : Option VecMeta
deriving DecidableEq

/-- A record stored in the vector index by the upsert. -/
structure VecRecord where
  id : String
  values : List ℚ
  metadata : VecMeta
deriving DecidableEq

/-- Match classification of a search hit. -/
inductive MatchType
  | semantic
  | keyword
  | both
deriving DecidableEq

/-- One hybrid/vector search result (URL attachment omitted: it is a pure
string concatenation over the CDN domain and no claim mentions it). -/
structure SearchResult where
  asset : Asset
  score : ℚ
  matchType : MatchType
deriving DecidableEq

/-! ### Captioning

Source: `src/lib/server/captioning.ts`. -/

/-- The fixed captionable MIME-type set (`CAPTIONABLE_TYPES`); SVG is
deliberately excluded. -/
def captionableTypes : List String :=
  ["image/jpeg", "image/png", "image/gif", "image/webp"]

/-- Source: `isCaptionable(mimeType)`. -/
def isCaptionable (mimeType : String) : Bool :=
  captionableTypes.contains mimeType

/-- Result of the captioning model (`{caption, model}`). -/
structure CaptionResult where
  caption : String
  model : String
deriving DecidableEq

/-! ### Embedding pipeline

Source: `generateAssetEmbedding` in `src/lib/server/embeddings.ts`.  The
external calls are supplied as outcomes: `captionOutcome` is the combined
result of the R2 fetch plus caption model (either step throwing is the
`Except.error` case), `embedOutcome` maps the composed text to the model's
vector or an error, `upsertOutcome` is the Vectorize upsert result. -/

/-- Environment of one `generateAssetEmbedding` run. -/
structure PipelineEnv where
  asset : Option Asset
  captionOutcome : Except String CaptionResult
  assetTagRecords : List (String × String)
  embedOutcome : String → Except String (List ℚ)
  upsertOutcome : Except String Unit
  now : Nat

/-- Outcome of one `generateAssetEmbedding` run: the asset row as left in
the relational store, the vector record upserted (if reached), and the
error propagated to the queue consumer (`none` when the run returned). -/
structure PipelineResult where
  asset : Option Asset
  upserted : Option VecRecord
  thrown : Option String
deriving DecidableEq

/-- Shallow embedding of `generateAssetEmbedding(assetId)`.  Follows the
source step by step: not-found throws; captioning runs only when the asset
has no caption yet (JavaScript-falsy check `!aiCaption`, so `null` or the
empty string) and the MIME type is captionable, and its failure is caught
and ignored while its success is persisted immediately; tag names and ids
are read from the join; the composed text is embedded; the vector is
upserted with tenant/folder/mime/createdAt/tag metadata; finally the asset
is marked completed with `embeddedAt` set and the error cleared. -/
def generateAssetEmbedding (env : PipelineEnv) : PipelineResult :=
  match env.asset with
  | none => ⟨none, none, some "Asset not found"⟩
  | some a0 =>
    let captioned : Asset × Option String :=
      if a0.aiCaption.getD "" = "" ∧ isCaptionable a0.mimeType = true then
        match env.captionOutcome with
        | Except.ok r =>
          ({ a0 with aiCaption := some r.caption, aiCaptionModel := some r.model }, some r.caption)
        | Except.error _ => (a0, none)
      else (a0, a0.aiCaption)
    let a1 := captioned.1
    let tagNames := env.assetTagRecords.map (fun t => t.1)
    let tagIds := env.assetTagRecords.map (fun t => t.2)
    let text := composeEmbeddingText a1.filename a1.altText a1.description captioned.2 tagNames
    match env.embedOutcome text with
    | Except.error e => ⟨some a1, none, some e⟩
    | Except.ok vec =>
      match env.upsertOutcome with
      | Except.error e => ⟨some a1, none, some e⟩
      | Except.ok _ =>
        ⟨some { a1 with embeddingStatus := EmbeddingStatus.completed,
                        embeddedAt := some env.now,
                        embeddingError := none },
         some ⟨a1.id, vec, ⟨a1.organizationId, a1.folderId.getD "", a1.mimeType, a1.createdAt, tagIds⟩⟩,
         none⟩

/-! ### Embedding state machine

The per-asset embedding state as touched by the four state-changing
operations.  Each operation copies the exact `.set({...})` clause from the
source. -/

/-- The embedding-related columns of one asset row. -/
structure EmbedState where
  status : EmbeddingStatus
  embeddedAt : Option Nat
  embeddingError : Option String
deriving DecidableEq

/-- State of a freshly uploaded asset: schema default `"pending"`, no
timestamp, no error. -/
def embedInit : EmbedState :=
  ⟨EmbeddingStatus.pending, none, none⟩

/-- State effect of `queueEmbedding`: sets only `embeddingStatus` to
`processing` (source: `.set({ embeddingStatus: "processing" })`). -/
def queueEmbedding (s : EmbedState) : EmbedState :=
  { s with status := EmbeddingStatus.processing }

/-- State effect of the final update in `generateAssetEmbedding`: completed,
`embeddedAt` set to now, error cleared. -/
def completeEmbedding (now : Nat) (_s : EmbedState) : EmbedState :=
  ⟨EmbeddingStatus.completed, some now, none⟩

/-- Source: `markEmbeddingFailed(assetId, error)` — sets status `failed` and
the error message; `embeddedAt` is not touched. -/
def markEmbeddingFailed (e : String) (s : EmbedState) : EmbedState :=
  { s with status := EmbeddingStatus.failed, embeddingError := some e }

/-- Source: `retryFailedEmbeddings` in `src/lib/server/backfill.ts` — resets
`failed` rows to `pending` and clears the error (the `WHERE` clause makes it
a no-op on any other status); `embeddedAt` is not touched. -/
def retryFailedEmbeddings (s : EmbedState) : EmbedState :=
  if s.status = EmbeddingStatus.failed then
    { s with status := EmbeddingStatus.pending, embeddingError := none }
  else s

/-- States reachable from upload through the four state-changing
operations, applied in any order and at any times. -/
inductive EmbedReachable : EmbedState → Prop
  | init : EmbedReachable embedInit
  | queue {s} : EmbedReachable s → EmbedReachable (queueEmbedding s)
  | complete {s} (now : Nat) : EmbedReachable s → EmbedReachable (completeEmbedding now s)
  | fail {s} (e : String) : EmbedReachable s → EmbedReachable (markEmbeddingFailed e s)
  | retryAll {s} : EmbedReachable s → EmbedReachable (retryFailedEmbeddings s)

/-! ### Queue consumer

Source: `handleEmbeddingQueue` in `src/lib/queue-handler.ts` and the
producer `queueEmbedding` in `src/lib/server/embeddings.ts`. -/

/-- Body of an embedding-queue message.  `retryCount` is optional in the
source (`retryCount?: number`). -/
structure EmbeddingMessage where
  assetId : String
  timestamp : Nat
  retryCount : Option Nat
deriving DecidableEq

/-- The message `queueEmbedding` sends: `{type: "embed_asset", assetId,
timestamp}` — no `retryCount` field. -/
def queueEmbeddingMessage (assetId : String) (ts : Nat) : EmbeddingMessage :=
  ⟨assetId, ts, none⟩

/-- What the consumer does with one message. -/
inductive QueueAction
  | ack
  | retryAfter (delaySeconds : Nat)
  | markFailedAck (err : String)
deriving DecidableEq

/-- Per-message decision of `handleEmbeddingQueue`: ack on success; on an
exception, if `retryCount` (defaulted to 0) is below 3, retry with delay
`2^(retryCount+1) * 10` seconds, else mark the asset failed and ack. -/
def handleEmbeddingMessage (body : EmbeddingMessage) (handlerResult : Except String Unit) :
    QueueAction :=
  match handlerResult with
  | Except.ok _ => QueueAction.ack
  | Except.error e =>
    let rc := body.retryCount.getD 0
    if rc < 3 then QueueAction.retryAfter (2 ^ (rc + 1) * 10)
    else QueueAction.markFailedAck e

/-- Queue redelivery contract: `message.retry({delaySeconds})` re-enqueues
the message for a later delivery with the identical body — the consumer
cannot modify the body, and nothing else writes to it. -/
def redeliveredBody (m : EmbeddingMessage) : EmbeddingMessage := m

/-- Body seen at the `n`-th delivery of a message whose every handling ended
in `retry`. -/
def bodyAtDelivery (m : EmbeddingMessage) : Nat → EmbeddingMessage
  | 0 => m
  | n + 1 => redeliveredBody (bodyAtDelivery m n)

/-! ### Asset deletion and the vector index

Source: `deleteAsset` / `deleteAssets` in `src/lib/server/assets.ts`, and
`deleteAssetVector` / `deleteAssetVectors` in
`src/lib/server/embeddings.ts`. -/

/-- The two external stores touched by deletion: the `assets` table and the
vector index (R2 object keys tracked as a list of stored keys). -/
structure Stores where
  db : List Asset
  vectors : List VecRecord
  r2Keys : List String
deriving DecidableEq

/-- Source: `deleteAsset({id})` — looks the asset up scoped to the caller's
organization (404 otherwise), deletes the R2 object, deletes the database
row.  No operation on the vector index appears in the handler. -/
def deleteAsset (st : Stores) (org id : String) : Except String Stores :=
  match st.db.find? (fun a => a.id == id && a.organizationId == org) with
  | none => Except.error "Asset not found"
  | some a =>
    Except.ok
      { db := st.db.filter (fun b => ¬ b.id = id),
        vectors := st.vectors,
        r2Keys := st.r2Keys.filter (fun k => ¬ k = a.r2Key) }

/-- Source: `deleteAssets({ids})` — selects the caller's rows among `ids`,
deletes their R2 objects, deletes those rows.  No operation on the vector
index appears in the handler. -/
def deleteAssets (st : Stores) (org : String) (ids : List String) : Stores × Nat :=
  let toDelete := st.db.filter (fun a => ids.contains a.id && a.organizationId == org)
  ({ db := st.db.filter (fun a => ¬ (ids.contains a.id && a.organizationId == org) = true),
     vectors := st.vectors,
     r2Keys := st.r2Keys.filter (fun k => ¬ toDelete.any (fun a => a.r2Key == k) = true) },
   toDelete.length)

/-- Source: `deleteAssetVector(assetId)` — `VECTORIZE.deleteByIds([id])`.
Defined in the source but never called from any delete path. -/
def deleteAssetVector (st : Stores) (assetId : String) : Stores :=
  { st with vectors := st.vectors.filter (fun v => ¬ v.id = assetId) }

/-- Source: `deleteAssetVectors(assetIds)` — batch `deleteByIds`; no-op on
an empty list.  Also never called from any delete path. -/
def deleteAssetVectors (st : Stores) (assetIds : List String) : Stores :=
  if assetIds.isEmpty then st
  else { st with vectors := st.vectors.filter (fun v => ¬ assetIds.contains v.id = true) }

/-- Ids a vector-index query scoped to one tenant can return: every live
record whose metadata carries that organization id. -/
def tenantVectorIds (vectors : List VecRecord) (org : String) : List String :=
  (vectors.filter (fun v => v.metadata.organizationId == org)).map (fun v => v.id)

/-! ### Search: shared input shape

Source: `VectorSearchInput` in `src/lib/types.ts`; `hybridSearch` adds a
`keywordBoost` field.  JavaScript destructuring defaults are modelled by
`Option` fields read with `getD`.  `mimeTypeFilter` models the source's
mime-type-prefix parameter. -/

/-- Input of `vectorSearch` / `hybridSearch` (without the boost). -/
structure SearchInput where
  query : String
  limit : Option Nat
  folderId : Option String
  tagIds : Option (List String)
  mimeTypeFilter : Option String
  minScore : Option ℚ
deriving DecidableEq

/-- Mime type read from a match's metadata with the source's fallback
(`(m.metadata?.mimeType as string) || ""`). -/
def metaMime (m : VecMatch) : String :=
  (m.metadata.map (fun md => md.mimeType)).getD ""

/-- Tag ids read from a match's metadata with the source's fallback
(`(m.metadata?.tagIds as string) || "[]"`, then `JSON.parse`). -/
def metaTagIds (m : VecMatch) : List String :=
  (m.metadata.map (fun md => md.tagIds)).getD []

/-- The post-hoc semantic-side filter shared by `vectorSearch` and the
semantic branch of `hybridSearch`: similarity at least `minScore`, metadata
mime type starting with the requested filter (when given), and, when a
nonempty tag list is requested, at least one requested tag among the
match's tags. -/
def semanticKeep (minScore : ℚ) (mimeTypeFilter : Option String)
    (tagIds : Option (List String)) (m : VecMatch) : Bool :=
  (minScore ≤ m.score) &&
  (match mimeTypeFilter with
   | none => true
   | some p => strStartsWith (metaMime m) p) &&
  (match tagIds with
   | none => true
   | some ts => ts.isEmpty || ts.any (fun t => (metaTagIds m).contains t))

/-! ### Search: keyword branch

Source: the keyword arm of the `Promise.all` in `hybridSearch`
(`src/lib/server/vector-search.ts`): organization- and optionally
folder-scoped `LIKE '%q%'` over filename, alt text and description, capped
by `.limit(limit)`, with no `ORDER BY` clause — the row order is whatever
the store returns, modelled as the table order. -/

/-- SQL `field LIKE '%q%'` on a nullable column: `NULL LIKE …` is not true. -/
def optLike (field : Option String) (q : String) : Bool :=
  match field with
  | none => false
  | some s => ciContains s q

/-- The row predicate of the keyword branch (the `WHERE` clause). -/
def keywordWhere (org : String) (folderId : Option String) (searchTerm : String)
    (a : Asset) : Bool :=
  a.organizationId == org &&
  (ciContains a.filename searchTerm || optLike a.altText searchTerm ||
    optLike a.description searchTerm) &&
  (match folderId with
   | none => true
   | some f => a.folderId == some f)

/-- The keyword branch of `hybridSearch`: filter the table by the `WHERE`
clause (search term is the trimmed query) and take at most `limit` rows in
table order. -/
def keywordBranch (org : String) (folderId : Option String) (query : String)
    (limit : Nat) (db : List Asset) : List Asset :=
  (db.filter (keywordWhere org folderId (jsTrim query))).take limit

/-! ### Search: fusion

Source: the score-map construction, combined scoring, sort and hydration of
`hybridSearch`. -/

/-- One entry of the score map (`{vectorScore, keywordMatch}` keyed by asset
id, in insertion order as a JavaScript `Map` iterates). -/
structure ScoreEntry where
  id : String
  vectorScore : ℚ
  keywordMatch : Bool
deriving DecidableEq

/-- `scoreMap.set(id, {vectorScore: score, keywordMatch: false})`:
overwrite in place when the key exists (a `Map` keeps the original
position), append otherwise. -/
def setSemantic (l : List ScoreEntry) (id : String) (score : ℚ) : List ScoreEntry :=
  match l with
  | [] => [⟨id, score, false⟩]
  | e :: es => if e.id = id then ⟨id, score, false⟩ :: es else e :: setSemantic es id score

/-- The keyword pass over the score map: flip `keywordMatch` in place when
the id is present, append `{vectorScore: 0, keywordMatch: true}` otherwise. -/
def setKeyword (l : List ScoreEntry) (id : String) : List ScoreEntry :=
  match l with
  | [] => [⟨id, 0, true⟩]
  | e :: es => if e.id = id then ⟨e.id, e.vectorScore, true⟩ :: es else e :: setKeyword es id

/-- Semantic side of the score map: every match surviving the shared
post-hoc filter is recorded with its similarity and `keywordMatch = false`. -/
def semanticEntries (minScore : ℚ) (mimeTypeFilter : Option String)
    (tagIds : Option (List String)) (vmatches : List VecMatch) : List ScoreEntry :=
  (vmatches.filter (semanticKeep minScore mimeTypeFilter tagIds)).foldl
    (fun l m => setSemantic l m.id m.score) []

/-- The fused score map: the semantic entries, then the keyword rows folded
in. -/
def fusedEntries (minScore : ℚ) (mimeTypeFilter : Option String)
    (tagIds : Option (List String)) (vmatches : List VecMatch) (kw : List Asset) :
    List ScoreEntry :=
  kw.foldl (fun l a => setKeyword l a.id) (semanticEntries minScore mimeTypeFilter tagIds vmatches)

/-- A scored, classified id awaiting hydration. -/
structure Scored where
  id : String
  score : ℚ
  matchType : MatchType
deriving DecidableEq

/-- Combined score and match type of one score-map entry:
`vectorScore + (keywordMatch ? keywordBoost : 0)`, classified `both` when
the vector score is positive and the keyword flag is set, else `keyword`
when the flag is set, else `semantic`. -/
def scoreOf (keywordBoost : ℚ) (e : ScoreEntry) : Scored :=
  ⟨e.id,
   e.vectorScore + (if e.keywordMatch then keywordBoost else 0),
   if 0 < e.vectorScore ∧ e.keywordMatch = true then MatchType.both
   else if e.keywordMatch then MatchType.keyword
   else MatchType.semantic⟩

/-- Stable descending insertion by a score projection: the new element goes
after every element whose score is at least as large (the behaviour of the
stable JavaScript `sort((a, b) => b.score - a.score)` on ties). -/
def insDescBy (f : α → ℚ) (x : α) : List α → List α
  | [] => [x]
  | y :: ys => if f x ≤ f y then y :: insDescBy f x ys else x :: y :: ys

/-- Stable descending sort by a score projection. -/
def sortDescBy (f : α → ℚ) (l : List α) : List α :=
  l.foldl (fun acc x => insDescBy f x acc) []

/-- Hydration: for each scored id in order, the first table row with that id
and the caller's organization id; ids that fail to hydrate are dropped
(`filter(r => r !== null)`). -/
def hydrate (org : String) (db : List Asset) (scored : List Scored) : List SearchResult :=
  scored.filterMap (fun s =>
    (db.find? (fun a => a.id == s.id && a.organizationId == org)).map
      (fun a => ⟨a, s.score, s.matchType⟩))

/-- Source: `hybridSearch` in `src/lib/server/vector-search.ts`.  `idx`
abstracts the Vectorize query issued by the semantic branch: the function
from the requested `topK` to the index's response for the query embedding
under the filter `{organizationId, folderId?}` both functions build
identically.  `db` is the `assets` table.  Defaults: `limit = 50`,
`minScore = 0.2`, `keywordBoost = 0.3`.  The semantic branch requests
`topK = min(limit, 50)`. -/
def hybridSearch (org : String) (inp : SearchInput) (keywordBoost : Option ℚ)
    (idx : Nat → List VecMatch) (db : List Asset) : List SearchResult :=
  if jsTrim inp.query = "" then []
  else
    let limit := inp.limit.getD 50
    let minScore := inp.minScore.getD (mkRat 1 5)
    let kb := keywordBoost.getD (mkRat 3 10)
    let vmatches := idx (min limit 50)
    let kw := keywordBranch org inp.folderId inp.query limit db
    let scored :=
      (sortDescBy Scored.score
        ((fusedEntries minScore inp.mimeTypeFilter inp.tagIds vmatches kw).map (scoreOf kb))).take
        limit
    hydrate org db scored

/-- Source: `vectorSearch` in `src/lib/server/vector-search.ts`.  Defaults:
`limit = 50`, `minScore = 0.3`.  Requests `topK = min(limit * 2, 50)`,
filters by threshold then by mime/tags (two chained `.filter` calls),
truncates to `limit`, returns early when nothing matched, hydrates from the
table scoped to the organization, and sorts the hydrated list by score
descending with `matchType` always `semantic`
(`scoreMap.get(id) || 0` modelled by `getD 0`). -/
def vectorSearch (org : String) (inp : SearchInput) (idx : Nat → List VecMatch)
    (db : List Asset) : List SearchResult :=
  if jsTrim inp.query = "" then []
  else
    let limit := inp.limit.getD 50
    let minScore := inp.minScore.getD (mkRat 3 10)
    let matching :=
      (((idx (min (limit * 2) 50)).filter (fun m => minScore ≤ m.score)).filter
          (fun m =>
            (match inp.mimeTypeFilter with
             | none => true
             | some p => strStartsWith (metaMime m) p) &&
            (match inp.tagIds with
             | none => true
             | some ts => ts.isEmpty || ts.any (fun t => (metaTagIds m).contains t)))).take
        limit
    if matching.isEmpty then []
    else
      sortDescBy SearchResult.score
        ((db.filter (fun a => matching.any (fun m => m.id == a.id) && a.organizationId == org)).map
          (fun a =>
            ⟨a, ((matching.find? (fun m => m.id == a.id)).map (fun m => m.score)).getD 0,
             MatchType.semantic⟩))

/-- Modelled from the claim's words (for the refinement comparison of C6):
a `vectorSearch` that runs `hybridSearch`'s semantic branch and filtering
alone — `topK = min(limit, 50)`, default `minScore = 0.2`, the shared
post-hoc filter — sorted by score descending without keyword fusion. -/
def vectorSearchClaimed (org : String) (inp : SearchInput) (idx : Nat → List VecMatch)
    (db : List Asset) : List SearchResult :=
  if jsTrim inp.query = "" then []
  else
    let limit := inp.limit.getD 50
    let minScore := inp.minScore.getD (mkRat 1 5)
    let surviving := (idx (min limit 50)).filter (semanticKeep minScore inp.mimeTypeFilter inp.tagIds)
    sortDescBy SearchResult.score
      ((db.filter (fun a => surviving.any (fun m => m.id == a.id) && a.organizationId == org)).map
        (fun a =>
          ⟨a, ((surviving.find? (fun m => m.id == a.id)).map (fun m => m.score)).getD 0,
           MatchType.semantic⟩))

/-- The amended description of `vectorSearch`: the same shared post-hoc
filter as `hybridSearch`'s semantic branch (`semanticKeep`) and the same
score-descending hydrated order without fusion, but with
`topK = min(limit * 2, 50)`, default `minScore = 0.3`, and the surviving
matches truncated to `limit`. -/
def vectorSearchAmended (org : String) (inp : SearchInput) (idx : Nat → List VecMatch)
    (db : List Asset) : List SearchResult :=
  if jsTrim inp.query = "" then []
  else
    let limit := inp.limit.getD 50
    let minScore := inp.minScore.getD (mkRat 3 10)
    let surviving :=
      ((idx (min (limit * 2) 50)).filter (semanticKeep minScore inp.mimeTypeFilter inp.tagIds)).take
        limit
    sortDescBy SearchResult.score
      ((db.filter (fun a => surviving.any (fun m => m.id == a.id) && a.organizationId == org)).map
        (fun a =>
          ⟨a, ((surviving.find? (fun m => m.id == a.id)).map (fun m => m.score)).getD 0,
           MatchType.semantic⟩))

/-! ### Generic lemmas about the sort and the score map -/

/-- Membership in a stable descending insertion. -/
theorem mem_insDescBy {f : α → ℚ} {x y : α} {l : List α} :
    y ∈ insDescBy f x l ↔ y = x ∨ y ∈ l := by
  induction l with
  | nil => simp [insDescBy]
  | cons z zs ih =>
    by_cases h : f x ≤ f z
    · simp [insDescBy, h, ih]
      tauto
    · simp [insDescBy, h, ih]

/-- Membership through the fold implementing the sort. -/
theorem mem_sortDescBy_foldl {f : α → ℚ} (l : List α) (acc : List α) (y : α) :
    (y ∈ l.foldl (fun acc x => insDescBy f x acc) acc) ↔ y ∈ acc ∨ y ∈ l := by
  induction l generalizing acc with
  | nil => simp
  | cons z zs ih => simp [List.foldl, ih, mem_insDescBy]; tauto

/-- The sort neither adds nor removes elements. -/
theorem mem_sortDescBy {f : α → ℚ} {l : List α} {y : α} :
    y ∈ sortDescBy f l ↔ y ∈ l := by
  simp [sortDescBy, mem_sortDescBy_foldl]

/-- Does the score map hold an entry for `i` with the keyword flag set? -/
def hasKeywordEntry (l : List ScoreEntry) (i : String) : Bool :=
  l.any (fun e => e.id == i && e.keywordMatch)

/-- Unfolding the flag check over a cons cell. -/
theorem hasKeywordEntry_cons (e : ScoreEntry) (l : List ScoreEntry) (j : String) :
    hasKeywordEntry (e :: l) j = ((e.id == j && e.keywordMatch) || hasKeywordEntry l j) := rfl

/-- The keyword pass records its own id with the flag set. -/
theorem hasKeywordEntry_setKeyword_self (l : List ScoreEntry) (i : String) :
    hasKeywordEntry (setKeyword l i) i = true := by
  induction l with
  | nil => simp [setKeyword, hasKeywordEntry]
  | cons e es ih =>
    by_cases hei : e.id = i
    · have hstep : setKeyword (e :: es) i = ⟨e.id, e.vectorScore, true⟩ :: es := by
        simp [setKeyword, hei]
      rw [hstep, hasKeywordEntry_cons]
      simp [hei]
    · have hstep : setKeyword (e :: es) i = e :: setKeyword es i := by
        simp [setKeyword, hei]
      rw [hstep, hasKeywordEntry_cons, ih]
      simp

/-- The keyword pass never clears an existing keyword flag. -/
theorem hasKeywordEntry_setKeyword_mono {l : List ScoreEntry} {j : String} (i : String)
    (h : hasKeywordEntry l j = true) : hasKeywordEntry (setKeyword l i) j = true := by
  induction l with
  | nil => simp [hasKeywordEntry] at h
  | cons e es ih =>
    rw [hasKeywordEntry_cons] at h
    rcases Bool.or_eq_true_iff.mp h with h1 | h2
    · have hj : (e.id == j) = true := (Bool.and_eq_true_iff.mp h1).1
      by_cases hei : e.id = i
      · have hstep : setKeyword (e :: es) i = ⟨e.id, e.vectorScore, true⟩ :: es := by
          simp [setKeyword, hei]
        rw [hstep, hasKeywordEntry_cons]
        simp [hj]
      · have hstep : setKeyword (e :: es) i = e :: setKeyword es i := by
          simp [setKeyword, hei]
        rw [hstep, hasKeywordEntry_cons, h1]
        simp
    · by_cases hei : e.id = i
      · have hstep : setKeyword (e :: es) i = ⟨e.id, e.vectorScore, true⟩ :: es := by
          simp [setKeyword, hei]
        rw [hstep, hasKeywordEntry_cons, h2]
        simp
      · have hstep : setKeyword (e :: es) i = e :: setKeyword es i := by
          simp [setKeyword, hei]
        rw [hstep, hasKeywordEntry_cons, ih h2]
        simp

/-- Folding further keyword rows preserves a set keyword flag. -/
theorem hasKeywordEntry_foldl_mono {kw : List Asset} {l : List ScoreEntry} {j : String}
    (h : hasKeywordEntry l j = true) :
    hasKeywordEntry (kw.foldl (fun l x => setKeyword l x.id) l) j = true := by
  induction kw generalizing l with
  | nil => exact h
  | cons b bs ih => exact ih (hasKeywordEntry_setKeyword_mono b.id h)

/-- Every keyword row ends up in the fused score map with its flag set,
whatever the semantic side contributed. -/
theorem mem_kw_hasKeywordEntry {kw : List Asset} {a : Asset} (l : List ScoreEntry)
    (h : a ∈ kw) :
    hasKeywordEntry (kw.foldl (fun l x => setKeyword l x.id) l) a.id = true := by
  induction kw generalizing l with
  | nil => cases h
  | cons b bs ih =>
    rcases List.mem_cons.mp h with rfl | hbs
    · rw [List.foldl_cons]
      exact hasKeywordEntry_foldl_mono (hasKeywordEntry_setKeyword_self l a.id)
    · rw [List.foldl_cons]
      exact ih _ hbs

/-- Unpacking one hydrated result: it came from a scored id, through a
tenant-scoped `find?` on the table. -/
theorem mem_hydrate {org : String} {db : List Asset} {scored : List Scored} {r : SearchResult}
    (h : r ∈ hydrate org db scored) :
    ∃ s ∈ scored, ∃ a : Asset,
      db.find? (fun a => a.id == s.id && a.organizationId == org) = some a ∧
      r = ⟨a, s.score, s.matchType⟩ := by
  simp only [hydrate, List.mem_filterMap] at h
  obtain ⟨s, hs, hmap⟩ := h
  rw [Option.map_eq_some'] at hmap
  obtain ⟨a, ha, hr⟩ := hmap
  exact ⟨s, hs, a, ha, hr.symm⟩

/-! ### Concrete scenarios used by the claim theorems -/

/-- Asset matched only semantically in the fusion-scoring scenario. -/
def assetX : Asset :=
  ⟨"x", "zebra.png", "k/x", "image/png", none, none, none, none, none, "org1",
   EmbeddingStatus.completed, none, some 10, 100⟩

/-- Variant of `assetX` whose filename also keyword-matches the query. -/
def assetXk : Asset :=
  ⟨"x", "cat-photo.png", "k/x", "image/png", none, none, none, none, none, "org1",
   EmbeddingStatus.completed, none, some 10, 100⟩

/-- Asset matched only by keyword in the fusion-scoring scenario. -/
def assetY : Asset :=
  ⟨"y", "cat.png", "k/y", "image/png", none, none, none, none, none, "org1",
   EmbeddingStatus.completed, none, some 11, 200⟩

/-- Query input for the fusion-scoring scenario: all options defaulted. -/
def inpC3 : SearchInput := ⟨"cat", none, none, none, none, none⟩

/-- Index oracle for the fusion-scoring scenario: one match for `assetX`
with similarity one half. -/
def idxC3 : Nat → List VecMatch := fun _ => [⟨"x", mkRat 1 2, none⟩]

/-- Asset whose similarity 0.25 sits between the two default thresholds. -/
def assetZ : Asset :=
  ⟨"z", "thing.bin", "k/z", "application/x", none, none, none, none, none, "org1",
   EmbeddingStatus.completed, none, some 1, 5⟩

/-- Query input for the `vectorSearch` comparison: all options defaulted. -/
def inpC6 : SearchInput := ⟨"cat", none, none, none, none, none⟩

/-- Index oracle for the `vectorSearch` comparison: one match with
similarity one quarter. -/
def idxC6 : Nat → List VecMatch := fun _ => [⟨"z", mkRat 1 4, none⟩]

/-- Older keyword-matching asset, stored first in table order. -/
def assetOld : Asset :=
  ⟨"o", "cat-old.png", "k/o", "image/png", none, none, none, none, none, "org1",
   EmbeddingStatus.pending, none, none, 1⟩

/-- Newer keyword-matching asset, stored second in table order. -/
def assetNew : Asset :=
  ⟨"n", "cat-new.png", "k/n", "image/png", none, none, none, none, none, "org1",
   EmbeddingStatus.pending, none, none, 9⟩

/-- Video asset that keyword-matches while violating both the mime-type
and the tag filter of the filter-bypass scenario. -/
def assetV : Asset :=
  ⟨"v", "report.mp4", "k/v", "video/mp4", none, none, none, none, none, "org1",
   EmbeddingStatus.pending, none, none, 3⟩

/-- Query input for the filter-bypass scenario: an image-only mime filter
and one required tag. -/
def inpC10 : SearchInput := ⟨"report", none, none, some ["t1"], some "image/", none⟩

/-- Captionable asset without a caption, for the pipeline scenario. -/
def assetC8 : Asset :=
  ⟨"c8", "pic.png", "k/c8", "image/png", none, none, none, none, none, "org1",
   EmbeddingStatus.processing, none, none, 42⟩

/-- The one vector record of the deletion scenario, owned by `org1`. -/
def vecA1 : VecRecord := ⟨"a1", [1], ⟨"org1", "", "image/png", 7, []⟩⟩

/-- Stores of the deletion scenario: one asset, its vector record, its
object key. -/
def stC2 : Stores :=
  ⟨[⟨"a1", "f.png", "k/a1", "image/png", none, none, none, none, none, "org1",
     EmbeddingStatus.completed, none, some 2, 7⟩],
   [vecA1], ["k/a1"]⟩

/-! ### Claim C1 -/

/-- At every delivery the redelivered body is the one `queueEmbedding`
sent. -/
theorem bodyAtDelivery_queued (a : String) (ts n : Nat) :
    bodyAtDelivery (queueEmbeddingMessage a ts) n = queueEmbeddingMessage a ts := by
  induction n with
  | zero => rfl
  | succ n ih => simp [bodyAtDelivery, redeliveredBody, ih]

/-- Claim C1: the consumer is claimed to retry a permanently failing
message exactly 3 times at 20s/40s/80s and then mark the asset failed and
ack.  In the code, `retryCount` is read from the message body, but
`queueEmbedding` never writes that field and `retry()` redelivers the
identical body, so the count is 0 at every delivery: the handler retries
with a 20-second delay forever and the mark-failed branch (reachable only
from a body already carrying `retryCount ≥ 3`, which nothing produces) is
dead code. -/
theorem c1_retry_never_marks_failed :
    (∀ (a : String) (ts n : Nat) (e : String),
      handleEmbeddingMessage (bodyAtDelivery (queueEmbeddingMessage a ts) n) (Except.error e) =
        QueueAction.retryAfter 20) ∧
    (∀ (a : String) (ts : Nat) (e : String),
      handleEmbeddingMessage ⟨a, ts, some 3⟩ (Except.error e) = QueueAction.markFailedAck e) := by
  constructor
  · intro a ts n e
    rw [bodyAtDelivery_queued]
    simp [handleEmbeddingMessage, queueEmbeddingMessage]
  · intro a ts e
    simp [handleEmbeddingMessage]

/-! ### Claim C2 -/

/-- Claim C2: single and bulk asset deletion are claimed to delete the
corresponding vector record(s) in the same logical operation.  Evaluating
the delete handlers on a store holding one asset together with its vector
record: the relational row and the object key are gone, yet the vector
record survives and a subsequent tenant-scoped vector-index query still
returns the deleted id — while the provided (but never called)
`deleteAssetVector` would have removed it. -/
theorem c2_delete_leaves_orphan_vectors :
    ((deleteAsset stC2 "org1" "a1").toOption.map
        (fun st => (st.db, st.r2Keys, tenantVectorIds st.vectors "org1")) =
      some ([], [], ["a1"])) ∧
    ((deleteAssets stC2 "org1" ["a1"]).1.db = [] ∧
      tenantVectorIds (deleteAssets stC2 "org1" ["a1"]).1.vectors "org1" = ["a1"]) ∧
    tenantVectorIds (deleteAssetVector stC2 "a1").vectors "org1" = [] := by
  refine ⟨by decide, ⟨by decide, by decide⟩, by decide⟩

/-! ### Claim C4 -/

/-- Claim C4 fails as stated: composing `"My-Photo_01.JPG"` alone yields
`"My Photo 01"` — the source lower-cases nothing. -/
theorem c4_compose_counterexample :
    composeEmbeddingText "My-Photo_01.JPG" none none none [] ≠ "my photo 01" := by
  decide

/-- No dot, no split. -/
theorem splitAtLastDot_of_no_dot {cs : List Char} (h : '.' ∉ cs) :
    splitAtLastDot cs = none := by
  induction cs with
  | nil => rfl
  | cons c cs ih =>
    have hc : ¬ c = '.' := fun hc => h (hc ▸ List.mem_cons_self c cs)
    simp [splitAtLastDot, ih (fun hm => h (List.mem_cons_of_mem c hm)), hc]

/-- The split finds the last dot. -/
theorem splitAtLastDot_append (b : List Char) {e : List Char} (h : '.' ∉ e) :
    splitAtLastDot (b ++ '.' :: e) = some (b, e) := by
  induction b with
  | nil => simp [splitAtLastDot, splitAtLastDot_of_no_dot h]
  | cons c cs ih => simp [splitAtLastDot, ih]

/-- Claim C4, amended: the composer is pure and strips the extension after
the final dot, but it preserves the original letter case — the example
composes to `"My Photo 01"`, not `"my photo 01"` — and each separator
character becomes one space, so a run of separators becomes a run of
spaces. -/
theorem c4_compose_amended :
    composeEmbeddingText "My-Photo_01.JPG" none none none [] = "My Photo 01" ∧
    composeEmbeddingText "a--b.png" none none none [] = "a  b" ∧
    ∀ base ext : String, ext.data ≠ [] → '.' ∉ ext.data → '/' ∉ ext.data →
      stripExtension (base ++ "." ++ ext) = base := by
  refine ⟨by decide, by decide, ?_⟩
  intro base ext hne hdot hslash
  have hdata : (base ++ "." ++ ext).data = base.data ++ '.' :: ext.data := by
    simp [String.data_append]
  simp only [stripExtension, hdata, splitAtLastDot_append base.data hdot]
  rw [if_pos ⟨hne, hslash⟩]

/-- Witness for the amended C4 at a concrete filename. -/
theorem c4_compose_amended_witness :
    stripExtension ("photo" ++ "." ++ "jpg") = "photo" :=
  c4_compose_amended.2.2 "photo" "jpg" (by decide) (by decide) (by decide)

/-! ### Claim C5 -/

/-- Claim C5 fails as stated: re-queueing a completed asset (the re-embed
path) leaves `embeddedAt` set while the status is `processing`, because
`queueEmbedding` writes only the status column. -/
theorem c5_embeddedAt_iff_counterexample :
    ¬(((queueEmbedding (completeEmbedding 5 (queueEmbedding embedInit))).embeddedAt.isSome =
        true) ↔
      (queueEmbedding (completeEmbedding 5 (queueEmbedding embedInit))).status =
        EmbeddingStatus.completed) := by
  decide

/-- Claim C5, amended: only the left-to-right half survives — in every
state reachable through the four operations, `completed` status implies a
set `embeddedAt` (completion writes both together); the converse fails
because none of `queueEmbedding`, `markEmbeddingFailed`,
`retryFailedEmbeddings` clears `embeddedAt`. -/
theorem c5_completed_implies_embeddedAt :
    ∀ s : EmbedState, EmbedReachable s → s.status = EmbeddingStatus.completed →
      s.embeddedAt.isSome = true := by
  intro s h
  induction h with
  | init => intro hc; simp [embedInit] at hc
  | queue _ ih => intro hc; simp [queueEmbedding] at hc
  | complete now _ ih => intro _; rfl
  | fail e _ ih => intro hc; simp [markEmbeddingFailed] at hc
  | retryAll _ ih =>
    intro hc
    unfold retryFailedEmbeddings at hc ⊢
    split at hc
    · simp at hc
    · simp only [if_neg (by assumption)]
      exact ih hc

/-- Witness for the amended C5: a freshly completed asset is reachable,
completed, and carries the timestamp. -/
theorem c5_completed_implies_embeddedAt_witness :
    (completeEmbedding 5 embedInit).embeddedAt.isSome = true :=
  c5_completed_implies_embeddedAt _ (EmbedReachable.complete 5 EmbedReachable.init) rfl

/-! ### Claim C7 -/

/-- Claim C7 fails on its ordering part: the keyword branch of
`hybridSearch` has no `ORDER BY`, so a table whose older matching row
precedes the newer one comes back oldest-first. -/
theorem c7_keyword_order_counterexample :
    keywordBranch "org1" none "cat" 50 [assetOld, assetNew] = [assetOld, assetNew] ∧
    assetOld.createdAt < assetNew.createdAt := by
  refine ⟨by decide, by decide⟩

/-- Claim C7, amended: the keyword branch is a case-insensitive substring
match over filename, alt text and description, scoped to the tenant and
the optional folder, capped at `limit` rows — but in the store's order,
not by recency.  Parts: the cap; soundness of every returned row;
completeness when the matches fit the cap; concrete case-insensitivity in
both directions. -/
theorem c7_keyword_branch_amended :
    (∀ (org : String) (fid : Option String) (q : String) (lim : Nat) (db : List Asset),
      (keywordBranch org fid q lim db).length ≤ lim) ∧
    (∀ (org : String) (fid : Option String) (q : String) (lim : Nat) (db : List Asset)
      (a : Asset), a ∈ keywordBranch org fid q lim db →
      a.organizationId = org ∧
      (ciContains a.filename (jsTrim q) = true ∨ optLike a.altText (jsTrim q) = true ∨
        optLike a.description (jsTrim q) = true) ∧
      ∀ f, fid = some f → a.folderId = some f) ∧
    (∀ (org : String) (fid : Option String) (q : String) (lim : Nat) (db : List Asset)
      (a : Asset), a ∈ db → keywordWhere org fid (jsTrim q) a = true →
      (db.filter (keywordWhere org fid (jsTrim q))).length ≤ lim →
      a ∈ keywordBranch org fid q lim db) ∧
    (ciContains "CAT.png" "cat" = true ∧ ciContains "cat.png" "CAT" = true) := by
  refine ⟨?_, ?_, ?_, by decide, by decide⟩
  · intro org fid q lim db
    simp [keywordBranch, List.length_take]
  · intro org fid q lim db a ha
    have hf := List.of_mem_filter (List.take_subset _ _ ha)
    simp only [keywordWhere, Bool.and_eq_true, beq_iff_eq, Bool.or_eq_true] at hf
    refine ⟨hf.1.1, or_assoc.mp hf.1.2, ?_⟩
    intro f hfid
    have hmatch := hf.2
    rw [hfid] at hmatch
    simpa using hmatch
  · intro org fid q lim db a ha hpred hlen
    unfold keywordBranch
    rw [List.take_of_length_le hlen]
    exact List.mem_filter.mpr ⟨ha, hpred⟩

/-- Witness for the amended C7: soundness instantiated on the concrete
two-row table. -/
theorem c7_keyword_branch_amended_witness :
    assetOld.organizationId = "org1" ∧
    (ciContains assetOld.filename (jsTrim "cat") = true ∨
      optLike assetOld.altText (jsTrim "cat") = true ∨
      optLike assetOld.description (jsTrim "cat") = true) ∧
    ∀ f, (none : Option String) = some f → assetOld.folderId = some f :=
  c7_keyword_branch_amended.2.1 "org1" none "cat" 50 [assetOld, assetNew] assetOld (by decide)

/-! ### Claim C3 -/

/-- Index oracle returning no matches. -/
def idxEmpty : Nat → List VecMatch := fun _ => []

/-- Evaluation of the fusion-scoring scenario: the semantic-only asset
scores one half, the keyword-only asset three tenths, in that order. -/
theorem hybridC3_eval :
    hybridSearch "org1" inpC3 none idxC3 [assetX, assetY] =
      [⟨assetX, mkRat 1 2, MatchType.semantic⟩, ⟨assetY, mkRat 3 10, MatchType.keyword⟩] := by
  have hfe : fusedEntries (mkRat 1 5) none none (idxC3 50)
      (keywordBranch "org1" none "cat" 50 [assetX, assetY]) =
      [⟨"x", mkRat 1 2, false⟩, ⟨"y", 0, true⟩] := by decide
  simp only [hybridSearch, inpC3]
  rw [if_neg (by decide)]
  simp only [Option.getD, Nat.min_self]
  rw [hfe]
  simp only [List.map, scoreOf, add_zero, zero_add]
  norm_num [sortDescBy, insDescBy, hydrate, assetX, assetY]
  rfl

/-- Evaluation of the variant where the semantic asset also
keyword-matches: it scores four fifths with type `both` and outranks the
keyword-only asset. -/
theorem hybridC3k_eval :
    hybridSearch "org1" inpC3 none idxC3 [assetXk, assetY] =
      [⟨assetXk, mkRat 4 5, MatchType.both⟩, ⟨assetY, mkRat 3 10, MatchType.keyword⟩] := by
  have hfe : fusedEntries (mkRat 1 5) none none (idxC3 50)
      (keywordBranch "org1" none "cat" 50 [assetXk, assetY]) =
      [⟨"x", mkRat 1 2, true⟩, ⟨"y", 0, true⟩] := by decide
  have hsum : mkRat 1 2 + mkRat 3 10 = mkRat 4 5 := by norm_num [Rat.mkRat_eq_div]
  simp only [hybridSearch, inpC3]
  rw [if_neg (by decide)]
  simp only [Option.getD, Nat.min_self]
  rw [hfe]
  simp only [List.map, scoreOf, add_zero, zero_add]
  norm_num [hsum, sortDescBy, insDescBy, hydrate, assetXk, assetY, Rat.mkRat_eq_div]
  rfl

/-- Claim C3: every hybrid result's combined score is its score-map entry's
`vectorScore + (keywordMatch ? keywordBoost : 0)` (boost defaulting to
three tenths) with the match type classified `both` / `keyword` /
`semantic` exactly as the source does; and on the concrete scenario the
semantic-only asset scores 0.5 (`semantic`), the keyword-only asset 0.3
(`keyword`), and when the first also keyword-matches it scores 0.8
(`both`) and outranks the keyword-only asset. -/
theorem c3_hybrid_fusion_scoring :
    (∀ (org : String) (inp : SearchInput) (kwB : Option ℚ) (idx : Nat → List VecMatch)
      (db : List Asset) (r : SearchResult), r ∈ hybridSearch org inp kwB idx db →
      ∃ e ∈ fusedEntries (inp.minScore.getD (mkRat 1 5)) inp.mimeTypeFilter inp.tagIds
          (idx (min (inp.limit.getD 50) 50))
          (keywordBranch org inp.folderId inp.query (inp.limit.getD 50) db),
        r.asset.id = e.id ∧
        r.score = e.vectorScore + (if e.keywordMatch then kwB.getD (mkRat 3 10) else 0) ∧
        r.matchType =
          (if 0 < e.vectorScore ∧ e.keywordMatch = true then MatchType.both
           else if e.keywordMatch then MatchType.keyword else MatchType.semantic)) ∧
    hybridSearch "org1" inpC3 none idxC3 [assetX, assetY] =
      [⟨assetX, mkRat 1 2, MatchType.semantic⟩, ⟨assetY, mkRat 3 10, MatchType.keyword⟩] ∧
    hybridSearch "org1" inpC3 none idxC3 [assetXk, assetY] =
      [⟨assetXk, mkRat 4 5, MatchType.both⟩, ⟨assetY, mkRat 3 10, MatchType.keyword⟩] := by
  refine ⟨?_, hybridC3_eval, hybridC3k_eval⟩
  intro org inp kwB idx db r hr
  by_cases hq : jsTrim inp.query = ""
  · simp [hybridSearch, hq] at hr
  · simp only [hybridSearch, if_neg hq] at hr
    obtain ⟨s, hs, a, hfind, rfl⟩ := mem_hydrate hr
    have hs1 := List.take_subset _ _ hs
    rw [mem_sortDescBy] at hs1
    obtain ⟨e, he, rfl⟩ := List.mem_map.mp hs1
    have hpred := List.find?_some hfind
    obtain ⟨hid, _⟩ := Bool.and_eq_true_iff.mp hpred
    exact ⟨e, he, beq_iff_eq.mp hid, rfl, rfl⟩

/-- Witness for C3: the keyword-only result of the concrete scenario,
traced back to its score-map entry by the theorem. -/
theorem c3_hybrid_fusion_scoring_witness :
    ((⟨assetY, mkRat 3 10, MatchType.keyword⟩ : SearchResult) ∈
      hybridSearch "org1" inpC3 none idxC3 [assetX, assetY]) ∧
    ∃ e ∈ fusedEntries (inpC3.minScore.getD (mkRat 1 5)) inpC3.mimeTypeFilter inpC3.tagIds
        (idxC3 (min (inpC3.limit.getD 50) 50))
        (keywordBranch "org1" inpC3.folderId inpC3.query (inpC3.limit.getD 50)
          [assetX, assetY]),
      (⟨assetY, mkRat 3 10, MatchType.keyword⟩ : SearchResult).asset.id = e.id ∧
      (⟨assetY, mkRat 3 10, MatchType.keyword⟩ : SearchResult).score =
        e.vectorScore + (if e.keywordMatch then (none : Option ℚ).getD (mkRat 3 10) else 0) ∧
      (⟨assetY, mkRat 3 10, MatchType.keyword⟩ : SearchResult).matchType =
        (if 0 < e.vectorScore ∧ e.keywordMatch = true then MatchType.both
         else if e.keywordMatch then MatchType.keyword else MatchType.semantic) := by
  have hm : (⟨assetY, mkRat 3 10, MatchType.keyword⟩ : SearchResult) ∈
      hybridSearch "org1" inpC3 none idxC3 [assetX, assetY] := by
    rw [hybridC3_eval]
    simp
  exact ⟨hm, c3_hybrid_fusion_scoring.1 "org1" inpC3 none idxC3 [assetX, assetY] _ hm⟩

/-! ### Claim C6 -/

/-- Claim C6 fails as stated: on a match of similarity 0.25 under default
parameters, the code's `vectorSearch` (default threshold 0.3) returns
nothing while the claimed variant — hybridSearch's semantic branch with
default threshold 0.2 — returns the asset. -/
theorem c6_vectorSearch_counterexample :
    vectorSearch "org1" inpC6 idxC6 [assetZ] = [] ∧
    vectorSearchClaimed "org1" inpC6 idxC6 [assetZ] =
      [⟨assetZ, mkRat 1 4, MatchType.semantic⟩] := by
  refine ⟨by decide, by decide⟩

/-- Claim C6, amended: `vectorSearch` does apply the same post-hoc
mime/tag filter as `hybridSearch`'s semantic branch and returns the
surviving matches hydrated and sorted by score descending without keyword
fusion, but it requests `topK = min(limit * 2, 50)` (not `min(limit, 50)`),
defaults `minScore` to 0.3 (not 0.2), and truncates the surviving matches
to `limit`. -/
theorem c6_vectorSearch_amended (org : String) (inp : SearchInput)
    (idx : Nat → List VecMatch) (db : List Asset) :
    vectorSearch org inp idx db = vectorSearchAmended org inp idx db := by
  by_cases hq : jsTrim inp.query = ""
  · simp [vectorSearch, vectorSearchAmended, hq]
  · simp only [vectorSearch, vectorSearchAmended, if_neg hq]
    have hfilters :
        ((idx (min (inp.limit.getD 50 * 2) 50)).filter
            (fun m => inp.minScore.getD (mkRat 3 10) ≤ m.score)).filter
          (fun m =>
            (match inp.mimeTypeFilter with
             | none => true
             | some p => strStartsWith (metaMime m) p) &&
            (match inp.tagIds with
             | none => true
             | some ts => ts.isEmpty || ts.any (fun t => (metaTagIds m).contains t))) =
        (idx (min (inp.limit.getD 50 * 2) 50)).filter
          (semanticKeep (inp.minScore.getD (mkRat 3 10)) inp.mimeTypeFilter inp.tagIds) := by
      rw [List.filter_filter]
      apply List.filter_congr
      intro m _
      simp only [semanticKeep]
      cases hA : (decide (inp.minScore.getD (mkRat 3 10) ≤ m.score)) <;>
        cases hB : (match inp.mimeTypeFilter with
          | none => true
          | some p => strStartsWith (metaMime m) p) <;>
        cases hC : (match inp.tagIds with
          | none => true
          | some ts => ts.isEmpty || ts.any (fun t => (metaTagIds m).contains t)) <;>
        simp [hA, hB, hC]
    rw [hfilters]
    split
    · rename_i hempty
      rw [List.isEmpty_iff] at hempty
      rw [hempty]
      simp [sortDescBy]
    · rfl

/-! ### Claim C8 -/

/-- Claim C8: captioning failure is non-fatal — the run still embeds,
upserts and completes with no caption persisted; and a successful caption
is persisted before and independently of the embedding outcome. -/
theorem c8_caption_independence (a : Asset) (tagRecs : List (String × String)) (now : Nat)
    (hNoCap : a.aiCaption = none) (hCap : isCaptionable a.mimeType = true) :
    (∀ (cerr : String) (vec : List ℚ),
      let r := generateAssetEmbedding
        ⟨some a, Except.error cerr, tagRecs, fun _ => Except.ok vec, Except.ok (), now⟩
      r.thrown = none ∧ r.asset.map Asset.aiCaption = some none ∧
        r.asset.map Asset.embeddingStatus = some EmbeddingStatus.completed ∧
        r.asset.map Asset.embeddedAt = some (some now) ∧ r.upserted.isSome = true) ∧
    (∀ (cap mdl eerr : String),
      let r := generateAssetEmbedding
        ⟨some a, Except.ok ⟨cap, mdl⟩, tagRecs, fun _ => Except.error eerr, Except.ok (), now⟩
      r.thrown = some eerr ∧ r.asset.map Asset.aiCaption = some (some cap) ∧
        r.asset.map Asset.aiCaptionModel = some (some mdl) ∧
        r.asset.map Asset.embeddingStatus = some a.embeddingStatus ∧ r.upserted = none) ∧
    (∀ (cap mdl : String) (vec : List ℚ),
      let r := generateAssetEmbedding
        ⟨some a, Except.ok ⟨cap, mdl⟩, tagRecs, fun _ => Except.ok vec, Except.ok (), now⟩
      r.thrown = none ∧ r.asset.map Asset.aiCaption = some (some cap) ∧
        r.asset.map Asset.embeddingStatus = some EmbeddingStatus.completed) := by
  refine ⟨?_, ?_, ?_⟩
  · intro cerr vec
    simp [generateAssetEmbedding, hNoCap, hCap]
  · intro cap mdl eerr
    simp [generateAssetEmbedding, hNoCap, hCap]
  · intro cap mdl vec
    simp [generateAssetEmbedding, hNoCap, hCap]

/-- Witness for C8 on a concrete captionable asset: the caption-failure run
and the caption-success-embedding-failure run. -/
theorem c8_caption_independence_witness :
    (let r := generateAssetEmbedding
        ⟨some assetC8, Except.error "capfail", [], fun _ => Except.ok [1], Except.ok (), 7⟩
     r.thrown = none ∧ r.asset.map Asset.aiCaption = some none ∧
       r.asset.map Asset.embeddingStatus = some EmbeddingStatus.completed ∧
       r.asset.map Asset.embeddedAt = some (some 7) ∧ r.upserted.isSome = true) ∧
    (let r := generateAssetEmbedding
        ⟨some assetC8, Except.ok ⟨"a cat", "model-x"⟩, [], fun _ => Except.error "embedfail",
         Except.ok (), 7⟩
     r.thrown = some "embedfail" ∧ r.asset.map Asset.aiCaption = some (some "a cat") ∧
       r.asset.map Asset.aiCaptionModel = some (some "model-x") ∧
       r.asset.map Asset.embeddingStatus = some assetC8.embeddingStatus ∧ r.upserted = none) :=
  ⟨(c8_caption_independence assetC8 [] 7 rfl (by decide)).1 "capfail" [1],
   (c8_caption_independence assetC8 [] 7 rfl (by decide)).2.1 "a cat" "model-x" "embedfail"⟩

/-! ### Claim C9 -/

/-- Claim C9: every asset `hybridSearch` returns belongs to the calling
tenant — whatever the vector index answered — because the hydration query
is itself scoped to the organization id and non-hydrating ids are
dropped. -/
theorem c9_tenant_isolation (org : String) (inp : SearchInput) (kwB : Option ℚ)
    (idx : Nat → List VecMatch) (db : List Asset) (r : SearchResult)
    (hr : r ∈ hybridSearch org inp kwB idx db) : r.asset.organizationId = org := by
  by_cases hq : jsTrim inp.query = ""
  · simp [hybridSearch, hq] at hr
  · simp only [hybridSearch, if_neg hq] at hr
    obtain ⟨s, _, a, hfind, rfl⟩ := mem_hydrate hr
    have hpred := List.find?_some hfind
    obtain ⟨_, horg⟩ := Bool.and_eq_true_iff.mp hpred
    exact beq_iff_eq.mp horg

/-- Witness for C9: a concrete returned result carries the caller's
organization id. -/
theorem c9_tenant_isolation_witness :
    ((⟨assetX, mkRat 1 2, MatchType.semantic⟩ : SearchResult) ∈
      hybridSearch "org1" inpC3 none idxC3 [assetX, assetY]) ∧
    (⟨assetX, mkRat 1 2, MatchType.semantic⟩ : SearchResult).asset.organizationId = "org1" := by
  have hm : (⟨assetX, mkRat 1 2, MatchType.semantic⟩ : SearchResult) ∈
      hybridSearch "org1" inpC3 none idxC3 [assetX, assetY] := by
    rw [hybridC3_eval]
    simp
  exact ⟨hm, c9_tenant_isolation "org1" inpC3 none idxC3 [assetX, assetY] _ hm⟩

/-! ### Claim C10 -/

/-- Evaluation of the filter-bypass scenario: with an image-only mime
filter and a required tag, a keyword-matching video asset with neither is
still returned, boosted to three tenths. -/
theorem hybridC10_eval :
    hybridSearch "org1" inpC10 none idxEmpty [assetV] =
      [⟨assetV, mkRat 3 10, MatchType.keyword⟩] := by
  have hfe : fusedEntries (mkRat 1 5) (some "image/") (some ["t1"]) (idxEmpty 50)
      (keywordBranch "org1" none "report" 50 [assetV]) = [⟨"v", 0, true⟩] := by decide
  simp only [hybridSearch, inpC10]
  rw [if_neg (by decide)]
  simp only [Option.getD, Nat.min_self]
  rw [hfe]
  simp only [List.map, scoreOf, add_zero, zero_add]
  norm_num [sortDescBy, insDescBy, hydrate, assetV]
  rfl

/-- Claim C10: the mime-type and tag filters act only on the semantic
branch — every keyword row enters the fused score map with its keyword
flag set regardless of those filters, and concretely `hybridSearch` with
an image-only mime filter and a required tag returns a video asset
carrying neither.  (The claim's universal half is about the fused map;
final inclusion is additionally subject to the `limit` truncation and
hydration, as in the concrete instance.) -/
theorem c10_keyword_bypasses_filters :
    (∀ (org : String) (inp : SearchInput) (idx : Nat → List VecMatch) (db : List Asset)
      (a : Asset), a ∈ keywordBranch org inp.folderId inp.query (inp.limit.getD 50) db →
      hasKeywordEntry
        (fusedEntries (inp.minScore.getD (mkRat 1 5)) inp.mimeTypeFilter inp.tagIds
          (idx (min (inp.limit.getD 50) 50))
          (keywordBranch org inp.folderId inp.query (inp.limit.getD 50) db)) a.id = true) ∧
    hybridSearch "org1" inpC10 none idxEmpty [assetV] =
      [⟨assetV, mkRat 3 10, MatchType.keyword⟩] ∧
    strStartsWith assetV.mimeType "image/" = false ∧
    inpC10.mimeTypeFilter = some "image/" ∧ inpC10.tagIds = some ["t1"] := by
  refine ⟨?_, hybridC10_eval, by decide, rfl, rfl⟩
  intro org inp idx db a ha
  exact mem_kw_hasKeywordEntry _ ha

/-- Witness for C10 on the concrete scenario: the video asset is in the
keyword branch, so the theorem places it in the fused map. -/
theorem c10_keyword_bypasses_filters_witness :
    (assetV ∈ keywordBranch "org1" inpC10.folderId inpC10.query (inpC10.limit.getD 50)
      [assetV]) ∧
    hasKeywordEntry
      (fusedEntries (inpC10.minScore.getD (mkRat 1 5)) inpC10.mimeTypeFilter inpC10.tagIds
        (idxEmpty (min (inpC10.limit.getD 50) 50))
        (keywordBranch "org1" inpC10.folderId inpC10.query (inpC10.limit.getD 50)
          [assetV])) assetV.id = true := by
  have hm : assetV ∈ keywordBranch "org1" inpC10.folderId inpC10.query (inpC10.limit.getD 50)
      [assetV] := by decide
  exact ⟨hm, c10_keyword_bypasses_filters.1 "org1" inpC10 idxEmpty [assetV] assetV hm⟩

end Archiv
